import Mathlib

/-!
Verification of the harvest / delivery core of the New Relic Go telemetry SDK
against its natural-language specification.

The Go sources are shallowly embedded: pure Go functions become Lean
functions, Go slices become `List`, Go `float64` becomes an explicit
classification type (`GoFloat`), fallible operations return `Option`.
Machine integers (`int64` content lengths, durations in nanoseconds) are
modelled as `Int`; none of the verified code paths overflow-wrap.
-/

namespace NRTelemetry

/-! ### Payload entries and the recursive request splitter

Embeds `split.go` (`newRequestsInternal`, `requestNeedsSplit`,
`splittablePayloadEntry`) together with the record-group `split`
implementations from `spans.go` (`spanGroup.split`), `metrics.go`
(`metricGroup.split`), `events.go` (`eventGroup.split`) and `logs.go`
(`logGroup.split`), which all halve their record slice at `len/2` and
return the empty token below two records.

An `Entry` is a payload entry of a batch: either a record group holding an
ordered list of records (these implement the `splittablePayloadEntry`
interface), or a non-splittable entry such as a common block (identified
by a tag so that distinct common blocks stay distinct in the model). -/

inductive Entry (α : Type) : Type where
  | group (records : List α)
  | common (tag : Nat)
deriving DecidableEq, Repr

/-- `split` of a record group: below two records the empty token (`none`) is
returned; otherwise the record list is halved at `len/2`, the first group
taking `records[0:len/2]` and the second `records[len/2:]`.  Non-splittable
entries (common blocks) do not implement the capability, modelled as
`none` as well. -/
def Entry.split {α : Type} : Entry α → Option (Entry α × Entry α)
  | .group rs =>
      if rs.length < 2 then none
      else some (.group (rs.take (rs.length / 2)), .group (rs.drop (rs.length / 2)))
  | .common _ => none

/-- The records held by an entry: the record list of a group, nothing for a
common block. -/
def Entry.records {α : Type} : Entry α → List α
  | .group rs => rs
  | .common _ => []

/-- Number of records held by an entry (termination measure ingredient). -/
def Entry.weight {α : Type} : Entry α → Nat
  | .group rs => rs.length
  | .common _ => 0

/-- A batch is an ordered list of payload entries. -/
abbrev Batch (α : Type) := List (Entry α)

/-- Records of a batch, in entry order. -/
def batchRecords {α : Type} (b : Batch α) : List α :=
  (b.map Entry.records).flatten

/-- Records of a batch list (one request body), in order. -/
def batchesRecords {α : Type} (bs : List (Batch α)) : List α :=
  (bs.map batchRecords).flatten

/-- Total record count of a batch. -/
def batchWeight {α : Type} (b : Batch α) : Nat :=
  (b.map Entry.weight).sum

/-- Termination measure of the splitter: batch count plus total record
count. -/
def batchesMeasure {α : Type} (bs : List (Batch α)) : Nat :=
  bs.length + (bs.map batchWeight).sum

/-- The entry-wise splitting loop of `newRequestsInternal` for a single
batch: walks the entries in order; an entry whose `split` yields a pair
sends its first half to the left output and its second half to the right
output and records that a split happened; any other entry is placed,
unchanged, in both outputs. -/
def splitEntries {α : Type} : Batch α → Batch α × Batch α × Bool
  | [] => ([], [], false)
  | e :: rest =>
      let t := splitEntries rest
      match e.split with
      | some (a, b) => (a :: t.1, b :: t.2.1, true)
      | none => (e :: t.1, e :: t.2.1, t.2.2)

/-- Characterization of a successful entry split: only a record group of at
least two records splits, into its two halves. -/
theorem Entry.split_eq_some {α : Type} {e a c : Entry α}
    (h : e.split = some (a, c)) :
    ∃ rs : List α, e = .group rs ∧ 2 ≤ rs.length ∧
      a = .group (rs.take (rs.length / 2)) ∧ c = .group (rs.drop (rs.length / 2)) := by
  cases e with
  | common t => simp [Entry.split] at h
  | group rs =>
      simp only [Entry.split] at h
      by_cases hl : rs.length < 2
      · simp [hl] at h
      · simp only [if_neg hl, Option.some.injEq, Prod.mk.injEq] at h
        exact ⟨rs, rfl, by omega, h.1.symm, h.2.symm⟩

theorem splitEntries_weight_left_le {α : Type} (b : Batch α) :
    batchWeight (splitEntries b).1 ≤ batchWeight b := by
  induction b with
  | nil => simp [splitEntries]
  | cons e rest ih =>
      cases he : e.split with
      | none =>
          simp only [splitEntries, he, batchWeight, List.map_cons, List.sum_cons]
          exact Nat.add_le_add_left ih _
      | some p =>
          obtain ⟨a, c⟩ := p
          obtain ⟨rs, rfl, hlen, rfl, rfl⟩ := Entry.split_eq_some he
          simp only [splitEntries, he, batchWeight, List.map_cons, List.sum_cons]
          have : (rs.take (rs.length / 2)).length ≤ rs.length := by
            simp [List.length_take]
          exact Nat.add_le_add this ih

theorem splitEntries_weight_right_le {α : Type} (b : Batch α) :
    batchWeight (splitEntries b).2.1 ≤ batchWeight b := by
  induction b with
  | nil => simp [splitEntries]
  | cons e rest ih =>
      cases he : e.split with
      | none =>
          simp only [splitEntries, he, batchWeight, List.map_cons, List.sum_cons]
          exact Nat.add_le_add_left ih _
      | some p =>
          obtain ⟨a, c⟩ := p
          obtain ⟨rs, rfl, hlen, rfl, rfl⟩ := Entry.split_eq_some he
          simp only [splitEntries, he, batchWeight, List.map_cons, List.sum_cons]
          have : (rs.drop (rs.length / 2)).length ≤ rs.length := by
            simp [List.length_drop]
          exact Nat.add_le_add this ih

theorem splitEntries_weight_left_lt {α : Type} (b : Batch α)
    (h : (splitEntries b).2.2 = true) :
    batchWeight (splitEntries b).1 < batchWeight b := by
  induction b with
  | nil => simp [splitEntries] at h
  | cons e rest ih =>
      cases he : e.split with
      | none =>
          simp only [splitEntries, he] at h
          have := ih h
          simp only [splitEntries, he, batchWeight, List.map_cons, List.sum_cons]
          exact Nat.add_lt_add_left this _
      | some p =>
          obtain ⟨a, c⟩ := p
          obtain ⟨rs, rfl, hlen, rfl, rfl⟩ := Entry.split_eq_some he
          simp only [splitEntries, he, batchWeight, List.map_cons, List.sum_cons]
          have h1 : (rs.take (rs.length / 2)).length < rs.length := by
            simp only [List.length_take]
            omega
          have h2 := splitEntries_weight_left_le rest
          simp only [batchWeight] at h2
          simp only [Entry.weight]
          omega

theorem splitEntries_weight_right_lt {α : Type} (b : Batch α)
    (h : (splitEntries b).2.2 = true) :
    batchWeight (splitEntries b).2.1 < batchWeight b := by
  induction b with
  | nil => simp [splitEntries] at h
  | cons e rest ih =>
      cases he : e.split with
      | none =>
          simp only [splitEntries, he] at h
          have := ih h
          simp only [splitEntries, he, batchWeight, List.map_cons, List.sum_cons]
          exact Nat.add_lt_add_left this _
      | some p =>
          obtain ⟨a, c⟩ := p
          obtain ⟨rs, rfl, hlen, rfl, rfl⟩ := Entry.split_eq_some he
          simp only [splitEntries, he, batchWeight, List.map_cons, List.sum_cons]
          have h1 : (rs.drop (rs.length / 2)).length < rs.length := by
            simp only [List.length_drop]
            omega
          have h2 := splitEntries_weight_right_le rest
          simp only [batchWeight] at h2
          simp only [Entry.weight]
          omega

theorem sum_map_take_add_drop {α : Type} (f : α → Nat) (l : List α) (n : Nat) :
    ((l.take n).map f).sum + ((l.drop n).map f).sum = (l.map f).sum := by
  rw [← List.sum_append, ← List.map_append, List.take_append_drop]

theorem measure_take_lt {α : Type} (batches : List (Batch α))
    (hlen : 1 < batches.length) :
    batchesMeasure (batches.take (batches.length / 2)) < batchesMeasure batches := by
  simp only [batchesMeasure]
  have h1 : (batches.take (batches.length / 2)).length < batches.length := by
    simp only [List.length_take]
    omega
  have h2 := sum_map_take_add_drop batchWeight batches (batches.length / 2)
  omega

theorem measure_drop_lt {α : Type} (batches : List (Batch α))
    (hlen : 1 < batches.length) :
    batchesMeasure (batches.drop (batches.length / 2)) < batchesMeasure batches := by
  simp only [batchesMeasure]
  have h1 : (batches.drop (batches.length / 2)).length < batches.length := by
    simp only [List.length_drop]
    omega
  have h2 := sum_map_take_add_drop batchWeight batches (batches.length / 2)
  omega

theorem measure_entry_left_lt {α : Type} (b : Batch α)
    (hs : (splitEntries b).2.2 = true) :
    batchesMeasure [(splitEntries b).1] < batchesMeasure [b] := by
  simp only [batchesMeasure, List.length_cons, List.length_nil, List.map_cons,
    List.map_nil, List.sum_cons, List.sum_nil]
  have := splitEntries_weight_left_lt b hs
  omega

theorem measure_entry_right_lt {α : Type} (b : Batch α)
    (hs : (splitEntries b).2.2 = true) :
    batchesMeasure [(splitEntries b).2.1] < batchesMeasure [b] := by
  simp only [batchesMeasure, List.length_cons, List.length_nil, List.map_cons,
    List.map_nil, List.sum_cons, List.sum_nil]
  have := splitEntries_weight_right_lt b hs
  omega

/-- `newRequestsInternal` from `split.go`: builds the request for the given
batch list (a produced request is identified by the batch list it was
built from); if the oversize predicate rejects it, the batch list is
halved — along batch boundaries when more than one batch is present,
otherwise entry-wise inside the single batch — and the two halves are
retried recursively, concatenating results in order; `none` models the
`errUnableToSplit` error (a recursive error aborts the whole call). -/
def newRequestsInternal {α : Type} (needsSplit : List (Batch α) → Bool)
    (batches : List (Batch α)) : Option (List (List (Batch α))) :=
  if needsSplit batches = false then some [batches]
  else if h : 1 < batches.length then
    match newRequestsInternal needsSplit (batches.take (batches.length / 2)),
          newRequestsInternal needsSplit (batches.drop (batches.length / 2)) with
    | some l, some r => some (l ++ r)
    | _, _ => none
  else
    match batches with
    | [b] =>
        if hs : (splitEntries b).2.2 = true then
          match newRequestsInternal needsSplit [(splitEntries b).1],
                newRequestsInternal needsSplit [(splitEntries b).2.1] with
          | some l, some r => some (l ++ r)
          | _, _ => none
        else none
    | _ => none
  termination_by batchesMeasure batches
  decreasing_by
  · exact measure_take_lt batches h
  · exact measure_drop_lt batches h
  · exact measure_entry_left_lt b hs
  · exact measure_entry_right_lt b hs

/-! ### Unfolding equations of the splitter, one per branch of the Go code. -/

theorem nri_of_needsSplit_false {α : Type} (needsSplit : List (Batch α) → Bool)
    (batches : List (Batch α)) (h : needsSplit batches = false) :
    newRequestsInternal needsSplit batches = some [batches] := by
  rw [newRequestsInternal]
  simp [h]

theorem nri_batch_split {α : Type} (needsSplit : List (Batch α) → Bool)
    (batches : List (Batch α)) (h : needsSplit batches = true)
    (hlen : 1 < batches.length) :
    newRequestsInternal needsSplit batches =
      match newRequestsInternal needsSplit (batches.take (batches.length / 2)),
            newRequestsInternal needsSplit (batches.drop (batches.length / 2)) with
      | some l, some r => some (l ++ r)
      | _, _ => none := by
  rw [newRequestsInternal]
  simp [h, hlen]

theorem nri_entry_split {α : Type} (needsSplit : List (Batch α) → Bool)
    (b : Batch α) (h : needsSplit [b] = true)
    (hs : (splitEntries b).2.2 = true) :
    newRequestsInternal needsSplit [b] =
      match newRequestsInternal needsSplit [(splitEntries b).1],
            newRequestsInternal needsSplit [(splitEntries b).2.1] with
      | some l, some r => some (l ++ r)
      | _, _ => none := by
  rw [newRequestsInternal]
  simp [h, hs]

theorem nri_unable {α : Type} (needsSplit : List (Batch α) → Bool)
    (b : Batch α) (h : needsSplit [b] = true)
    (hs : (splitEntries b).2.2 = false) :
    newRequestsInternal needsSplit [b] = none := by
  rw [newRequestsInternal]
  simp [h, hs]

theorem nri_nil {α : Type} (needsSplit : List (Batch α) → Bool)
    (h : needsSplit [] = true) :
    newRequestsInternal needsSplit [] = none := by
  rw [newRequestsInternal]
  simp [h]

/-! ### Derivation (refinement) of entries and batches

`Entry.refines e1 e2` says the output entry `e2` is a possible derivative of
the input entry `e` under any number of splitting steps: a common block is
always carried over unchanged; a record group may only shrink to a
contiguous slice of its record list, and an indivisible group (fewer than
two records) is carried over unchanged. -/

def Entry.refines {α : Type} : Entry α → Entry α → Prop
  | .common t, e2 => e2 = .common t
  | .group rs, e2 =>
      ∃ rs2, e2 = .group rs2 ∧ rs2 <:+: rs ∧ (rs.length < 2 → rs2 = rs)

theorem Entry.refines_refl {α : Type} (e : Entry α) : e.refines e := by
  cases e with
  | common t => simp [Entry.refines]
  | group rs => exact ⟨rs, rfl, List.infix_refl rs, fun _ => rfl⟩

theorem Entry.refines_trans {α : Type} {e1 e2 e3 : Entry α}
    (h12 : e1.refines e2) (h23 : e2.refines e3) : e1.refines e3 := by
  cases e1 with
  | common t =>
      simp only [Entry.refines] at h12
      subst h12
      exact h23
  | group rs =>
      obtain ⟨rs2, rfl, hinf, hsmall⟩ := h12
      obtain ⟨rs3, rfl, hinf2, hsmall2⟩ := h23
      refine ⟨rs3, rfl, hinf2.trans hinf, fun hlt => ?_⟩
      have h2 : rs2 = rs := hsmall hlt
      subst h2
      exact hsmall2 hlt

theorem forall₂_refines_refl {α : Type} (b : Batch α) :
    List.Forall₂ Entry.refines b b :=
  List.forall₂_same.mpr fun e _ => Entry.refines_refl e

theorem forall₂_refines_trans {α : Type} {b1 b2 b3 : Batch α}
    (h12 : List.Forall₂ Entry.refines b1 b2)
    (h23 : List.Forall₂ Entry.refines b2 b3) :
    List.Forall₂ Entry.refines b1 b3 := by
  induction h12 generalizing b3 with
  | nil =>
      cases h23
      exact List.Forall₂.nil
  | cons h t ih =>
      cases h23 with
      | cons h2 t2 => exact List.Forall₂.cons (Entry.refines_trans h h2) (ih t2)

theorem splitEntries_left_refines {α : Type} (b : Batch α) :
    List.Forall₂ Entry.refines b (splitEntries b).1 := by
  induction b with
  | nil => simp [splitEntries]
  | cons e rest ih =>
      cases he : e.split with
      | none =>
          simp only [splitEntries, he]
          exact List.Forall₂.cons (Entry.refines_refl e) ih
      | some p =>
          obtain ⟨a, c⟩ := p
          obtain ⟨rs, rfl, hlen, rfl, rfl⟩ := Entry.split_eq_some he
          simp only [splitEntries, he]
          refine List.Forall₂.cons ⟨_, rfl, (List.take_prefix _ _).isInfix, ?_⟩ ih
          intro hlt
          omega

theorem splitEntries_right_refines {α : Type} (b : Batch α) :
    List.Forall₂ Entry.refines b (splitEntries b).2.1 := by
  induction b with
  | nil => simp [splitEntries]
  | cons e rest ih =>
      cases he : e.split with
      | none =>
          simp only [splitEntries, he]
          exact List.Forall₂.cons (Entry.refines_refl e) ih
      | some p =>
          obtain ⟨a, c⟩ := p
          obtain ⟨rs, rfl, hlen, rfl, rfl⟩ := Entry.split_eq_some he
          simp only [splitEntries, he]
          refine List.Forall₂.cons ⟨_, rfl, (List.drop_suffix _ _).isInfix, ?_⟩ ih
          intro hlt
          omega

theorem batchRecords_cons {α : Type} (e : Entry α) (b : Batch α) :
    batchRecords (e :: b) = e.records ++ batchRecords b := by
  simp [batchRecords]

/-- Entry-wise splitting loses and invents no record: a record occurs in one
of the two halves exactly when it occurs in the input batch. -/
theorem mem_splitEntries_iff {α : Type} (x : α) (b : Batch α) :
    (x ∈ batchRecords (splitEntries b).1 ∨ x ∈ batchRecords (splitEntries b).2.1)
      ↔ x ∈ batchRecords b := by
  induction b with
  | nil => simp [splitEntries, batchRecords]
  | cons e rest ih =>
      cases he : e.split with
      | none =>
          simp only [splitEntries, he, batchRecords_cons, List.mem_append]
          tauto
      | some p =>
          obtain ⟨a, c⟩ := p
          obtain ⟨rs, rfl, hlen, rfl, rfl⟩ := Entry.split_eq_some he
          simp only [splitEntries, he, batchRecords_cons, List.mem_append,
            Entry.records]
          have hx : x ∈ rs.take (rs.length / 2) ∨ x ∈ rs.drop (rs.length / 2) ↔ x ∈ rs := by
            rw [← List.mem_append, List.take_append_drop]
          tauto

/-- Records of all produced requests, in output order. -/
def reqsRecords {α : Type} (reqs : List (List (Batch α))) : List α :=
  (reqs.map batchesRecords).flatten

theorem batchesRecords_append {α : Type} (bs1 bs2 : List (Batch α)) :
    batchesRecords (bs1 ++ bs2) = batchesRecords bs1 ++ batchesRecords bs2 := by
  simp [batchesRecords]

theorem reqsRecords_append {α : Type} (r1 r2 : List (List (Batch α))) :
    reqsRecords (r1 ++ r2) = reqsRecords r1 ++ reqsRecords r2 := by
  simp [reqsRecords]

theorem batchesRecords_take_drop {α : Type} (bs : List (Batch α)) (n : Nat) :
    batchesRecords (bs.take n) ++ batchesRecords (bs.drop n) = batchesRecords bs := by
  rw [← batchesRecords_append, List.take_append_drop]

/-- Core soundness of the recursive splitter: when it succeeds, (1) the
produced requests hold exactly the input records (no record is lost or
invented), and (2) every batch of every produced request is derived from
some input batch entry by entry — common blocks unchanged, record groups
shrunk to contiguous slices, indivisible groups unchanged. -/
theorem nri_sound {α : Type} (needsSplit : List (Batch α) → Bool)
    (batches : List (Batch α)) (reqs : List (List (Batch α)))
    (h : newRequestsInternal needsSplit batches = some reqs) :
    (∀ x : α, x ∈ reqsRecords reqs ↔ x ∈ batchesRecords batches) ∧
    (∀ req ∈ reqs, ∀ b2 ∈ req, ∃ b ∈ batches, List.Forall₂ Entry.refines b b2) := by
  suffices H : ∀ (n : Nat) (bs : List (Batch α)) (rq : List (List (Batch α))),
      batchesMeasure bs = n → newRequestsInternal needsSplit bs = some rq →
      (∀ x : α, x ∈ reqsRecords rq ↔ x ∈ batchesRecords bs) ∧
      (∀ req ∈ rq, ∀ b2 ∈ req, ∃ b ∈ bs, List.Forall₂ Entry.refines b b2) by
    exact H (batchesMeasure batches) batches reqs rfl h
  intro n
  induction n using Nat.strong_induction_on with
  | _ n ih =>
    intro bs rq hm h
    by_cases hns : needsSplit bs = false
    · rw [nri_of_needsSplit_false needsSplit bs hns] at h
      obtain rfl : [bs] = rq := Option.some.inj h
      constructor
      · intro x
        simp [reqsRecords]
      · rintro req hreq b2 hb2
        simp only [List.mem_singleton] at hreq
        subst hreq
        exact ⟨b2, hb2, forall₂_refines_refl b2⟩
    · have hns1 : needsSplit bs = true := by
        revert hns
        cases needsSplit bs <;> simp
      by_cases hlen : 1 < bs.length
      · rw [nri_batch_split needsSplit bs hns1 hlen] at h
        rcases hL : newRequestsInternal needsSplit (bs.take (bs.length / 2)) with _ | l <;>
          rcases hR : newRequestsInternal needsSplit (bs.drop (bs.length / 2)) with _ | r <;>
            rw [hL, hR] at h <;> simp only [reduceCtorEq] at h
        obtain rfl : l ++ r = rq := Option.some.inj h
        have ihL := ih _ (hm ▸ measure_take_lt bs hlen) _ _ rfl hL
        have ihR := ih _ (hm ▸ measure_drop_lt bs hlen) _ _ rfl hR
        constructor
        · intro x
          rw [reqsRecords_append, List.mem_append, ihL.1 x, ihR.1 x,
            ← batchesRecords_take_drop bs (bs.length / 2), List.mem_append]
        · rintro req hreq b2 hb2
          rcases List.mem_append.mp hreq with hreq | hreq
          · obtain ⟨b, hb, hf⟩ := ihL.2 req hreq b2 hb2
            exact ⟨b, List.mem_of_mem_take hb, hf⟩
          · obtain ⟨b, hb, hf⟩ := ihR.2 req hreq b2 hb2
            exact ⟨b, List.mem_of_mem_drop hb, hf⟩
      · rcases bs with _ | ⟨b, rest⟩
        · rw [nri_nil needsSplit hns1] at h
          exact absurd h (by simp)
        rcases rest with _ | ⟨b2, rest2⟩
        · by_cases hs : (splitEntries b).2.2 = true
          · rw [nri_entry_split needsSplit b hns1 hs] at h
            rcases hL : newRequestsInternal needsSplit [(splitEntries b).1] with _ | l <;>
              rcases hR : newRequestsInternal needsSplit [(splitEntries b).2.1] with _ | r <;>
                rw [hL, hR] at h <;> simp only [reduceCtorEq] at h
            obtain rfl : l ++ r = rq := Option.some.inj h
            have ihL := ih _ (hm ▸ measure_entry_left_lt b hs) _ _ rfl hL
            have ihR := ih _ (hm ▸ measure_entry_right_lt b hs) _ _ rfl hR
            constructor
            · intro x
              rw [reqsRecords_append, List.mem_append, ihL.1 x, ihR.1 x]
              have h1 : batchesRecords [(splitEntries b).1] = batchRecords (splitEntries b).1 := by
                simp [batchesRecords]
              have h2 : batchesRecords [(splitEntries b).2.1] = batchRecords (splitEntries b).2.1 := by
                simp [batchesRecords]
              have h3 : batchesRecords [b] = batchRecords b := by
                simp [batchesRecords]
              rw [h1, h2, h3]
              exact mem_splitEntries_iff x b
            · rintro req hreq c2 hc2
              rcases List.mem_append.mp hreq with hreq | hreq
              · obtain ⟨c, hc, hf⟩ := ihL.2 req hreq c2 hc2
                simp only [List.mem_singleton] at hc
                subst hc
                exact ⟨b, List.mem_singleton_self b,
                  forall₂_refines_trans (splitEntries_left_refines b) hf⟩
              · obtain ⟨c, hc, hf⟩ := ihR.2 req hreq c2 hc2
                simp only [List.mem_singleton] at hc
                subst hc
                exact ⟨b, List.mem_singleton_self b,
                  forall₂_refines_trans (splitEntries_right_refines b) hf⟩
          · rw [nri_unable needsSplit b hns1 (by simpa using hs)] at h
            exact absurd h (by simp)
        · exfalso
          simp only [List.length_cons] at hlen
          omega

theorem refines_mem_common {α : Type} {b b2 : Batch α}
    (h : List.Forall₂ Entry.refines b b2) (t : Nat)
    (ht : Entry.common t ∈ b) : Entry.common t ∈ b2 := by
  induction h with
  | nil => cases ht
  | cons h1 h2 ih =>
      rcases List.mem_cons.mp ht with he | he
      · rw [← he] at h1
        simp only [Entry.refines] at h1
        rw [h1]
        exact List.mem_cons_self _ _
      · exact List.mem_cons_of_mem _ (ih he)

theorem refines_mem_small_group {α : Type} {b b2 : Batch α}
    (h : List.Forall₂ Entry.refines b b2) (rs : List α) (hlen : rs.length < 2)
    (ht : Entry.group rs ∈ b) : Entry.group rs ∈ b2 := by
  induction h with
  | nil => cases ht
  | cons h1 h2 ih =>
      rcases List.mem_cons.mp ht with he | he
      · rw [← he] at h1
        obtain ⟨rs2, hb, _, hsmall⟩ := h1
        rw [hb, hsmall hlen]
        exact List.mem_cons_self _ _
      · exact List.mem_cons_of_mem _ (ih he)

theorem refines_mem_group_rev {α : Type} {b b2 : Batch α}
    (h : List.Forall₂ Entry.refines b b2) (rs2 : List α)
    (ht : Entry.group rs2 ∈ b2) : ∃ rs, Entry.group rs ∈ b ∧ rs2 <:+: rs := by
  induction h with
  | nil => cases ht
  | cons h1 h2 ih =>
      rcases List.mem_cons.mp ht with he | he
      · rename_i a bh l1 l2
        cases a with
        | common t =>
            simp only [Entry.refines] at h1
            rw [h1] at he
            cases he
        | group rs =>
            obtain ⟨rs3, hb, hinf, _⟩ := h1
            rw [hb] at he
            obtain rfl : rs2 = rs3 := by
              injection he
            exact ⟨rs, List.mem_cons_self _ _, hinf⟩
      · obtain ⟨rs, hmem, hinf⟩ := ih he
        exact ⟨rs, List.mem_cons_of_mem _ hmem, hinf⟩

/-- C1 (amended).  If the splitter `newRequestsInternal` returns a request
list without error, then (1) the union of the records in the produced
requests equals the input records — every input record appears in some
produced request and every produced record comes from the input — and
(2) every batch of every produced request derives from an input batch
entry by entry: order is preserved within each group (each produced
group is a contiguous slice of the corresponding input group), every
non-splittable entry (e.g. a common block) of the input batch is present
in every produced request derived from it, and so is — this is the
amendment — every record group holding fewer than two records, whose
records are therefore duplicated (not partitioned) across the derived
requests. -/
theorem C1_splitter_conservation {α : Type}
    (needsSplit : List (Batch α) → Bool) (batches : List (Batch α))
    (reqs : List (List (Batch α)))
    (h : newRequestsInternal needsSplit batches = some reqs) :
    (∀ x : α, x ∈ reqsRecords reqs ↔ x ∈ batchesRecords batches) ∧
    (∀ req ∈ reqs, ∀ b2 ∈ req, ∃ b ∈ batches,
        List.Forall₂ Entry.refines b b2 ∧
        (∀ t, Entry.common t ∈ b → Entry.common t ∈ b2) ∧
        (∀ rs, rs.length < 2 → Entry.group rs ∈ b → Entry.group rs ∈ b2) ∧
        (∀ rs2, Entry.group rs2 ∈ b2 → ∃ rs, Entry.group rs ∈ b ∧ rs2 <:+: rs)) := by
  obtain ⟨h1, h2⟩ := nri_sound needsSplit batches reqs h
  refine ⟨h1, fun req hreq b2 hb2 => ?_⟩
  obtain ⟨b, hb, hf⟩ := h2 req hreq b2 hb2
  exact ⟨b, hb, hf, fun t => refines_mem_common hf t,
    fun rs hlen => refines_mem_small_group hf rs hlen,
    fun rs2 => refines_mem_group_rev hf rs2⟩

/-- Oversize predicate used by the C1 counterexample: a request is too
large whenever it still carries at least three records. -/
def exPredC1 : List (Batch Nat) → Bool := fun bs => 3 ≤ (batchesRecords bs).length

/-- Input batch of the C1 counterexample: one indivisible record group
next to one divisible record group. -/
def exBatchC1 : Batch Nat := [Entry.group [0], Entry.group [1, 2]]

/-- C1 as frozen is false: on a single batch holding the indivisible
record group `[0]` next to the divisible group `[1, 2]`, the splitter
succeeds but duplicates the indivisible group into both produced
requests, so the concatenation, in output order, of the records held by
the record groups of the requests is `[0, 1, 0, 2]`, not the input
sequence `[0, 1, 2]`. -/
theorem C1_counterexample_concat :
    newRequestsInternal exPredC1 [exBatchC1] =
      some [[[Entry.group [0], Entry.group [1]]], [[Entry.group [0], Entry.group [2]]]] ∧
    reqsRecords [[[Entry.group [0], Entry.group [1]]], [[Entry.group [0], Entry.group [2]]]]
      = [0, 1, 0, 2] ∧
    batchesRecords [exBatchC1] = [0, 1, 2] ∧
    ([0, 1, 0, 2] : List Nat) ≠ [0, 1, 2] := by
  refine ⟨?_, by decide, by decide, by decide⟩
  rw [nri_entry_split exPredC1 exBatchC1 (by decide) (by decide),
    nri_of_needsSplit_false exPredC1 _ (by decide),
    nri_of_needsSplit_false exPredC1 _ (by decide)]
  decide

/-- Witness for the C1 amended theorem at a concrete input: the oversize
predicate that always accepts produces the single request `[batches]`. -/
theorem C1_witness :
    ((fun _ => false : List (Batch Nat) → Bool) [[Entry.group [5]]] = false →
      newRequestsInternal (fun _ => false) [[Entry.group [5]]] = some [[[Entry.group [5]]]]) ∧
    ((∀ x : Nat, x ∈ reqsRecords [[[Entry.group [5]]]] ↔ x ∈ batchesRecords [[Entry.group [5]]]) ∧
     (∀ req ∈ [[[Entry.group [5]]]], ∀ b2 ∈ req, ∃ b ∈ [[Entry.group [5]]],
        List.Forall₂ Entry.refines b b2 ∧
        (∀ t, Entry.common t ∈ b → Entry.common t ∈ b2) ∧
        (∀ rs, rs.length < 2 → Entry.group rs ∈ b → Entry.group rs ∈ b2) ∧
        (∀ rs2, Entry.group rs2 ∈ b2 → ∃ rs, Entry.group rs ∈ b ∧ rs2 <:+: rs))) :=
  ⟨fun h => nri_of_needsSplit_false _ _ h,
   C1_splitter_conservation (fun _ => false) [[Entry.group [5]]] [[[Entry.group [5]]]]
     (nri_of_needsSplit_false _ _ rfl)⟩

theorem splitEntries_flag_false_of_all_none {α : Type} (b : Batch α)
    (h : ∀ e ∈ b, e.split = none) : (splitEntries b).2.2 = false := by
  induction b with
  | nil => simp [splitEntries]
  | cons e rest ih =>
      have he : e.split = none := h e (List.mem_cons_self _ _)
      simp only [splitEntries, he]
      exact ih fun e2 he2 => h e2 (List.mem_cons_of_mem _ he2)

/-- C2.  On an input of exactly one batch in which no entry splits — every
record group holds fewer than two records and every other entry is
non-splittable — an oversize request makes the splitter fail with
`UnableToSplit` (modelled as `none`) instead of producing requests. -/
theorem C2_unable_to_split {α : Type}
    (needsSplit : List (Batch α) → Bool) (b : Batch α)
    (hnone : ∀ e ∈ b, e.split = none)
    (hbig : needsSplit [b] = true) :
    newRequestsInternal needsSplit [b] = none :=
  nri_unable needsSplit b hbig (splitEntries_flag_false_of_all_none b hnone)

/-- Witness for C2: a single oversize common block cannot be split. -/
theorem C2_witness :
    ((∀ e ∈ ([Entry.common 0] : Batch Nat), e.split = none) ∧
      (fun _ => true : List (Batch Nat) → Bool) [[Entry.common 0]] = true) ∧
    newRequestsInternal (fun _ => true) [([Entry.common 0] : Batch Nat)] = none :=
  ⟨⟨by decide, rfl⟩, C2_unable_to_split (fun _ => true) [Entry.common 0] (by decide) rfl⟩

/-- C3.  (1) When the built request is oversize and more than one batch is
present, the splitter recurses on exactly the first `⌊len/2⌋` batches as
the left half and the remaining batches as the right half, concatenating
the results; (2) the `split` of a record group of `n ≥ 2` records returns
exactly the two groups `records[0:⌊n/2⌋]` and `records[⌊n/2⌋:n]`. -/
theorem C3_halving {α : Type} :
    (∀ (needsSplit : List (Batch α) → Bool) (batches : List (Batch α)),
      needsSplit batches = true → 1 < batches.length →
      newRequestsInternal needsSplit batches =
        match newRequestsInternal needsSplit (batches.take (batches.length / 2)),
              newRequestsInternal needsSplit (batches.drop (batches.length / 2)) with
        | some l, some r => some (l ++ r)
        | _, _ => none) ∧
    (∀ rs : List α, 2 ≤ rs.length →
      Entry.split (Entry.group rs) =
        some (Entry.group (rs.take (rs.length / 2)),
              Entry.group (rs.drop (rs.length / 2)))) := by
  constructor
  · exact nri_batch_split
  · intro rs hlen
    simp only [Entry.split, if_neg (by omega : ¬rs.length < 2)]

/-- Witness for C3 at two batches and a two-record group: the always-true
predicate forces the batch-halving equation, and the two halves — single
batches holding only a common block — are in turn unsplittable, so the
whole call evaluates to the `UnableToSplit` error. -/
theorem C3_witness :
    ((fun _ => true : List (Batch Nat) → Bool) [[Entry.common 0], [Entry.common 1]] = true ∧
      1 < ([[Entry.common 0], [Entry.common 1]] : List (Batch Nat)).length ∧
      2 ≤ ([7, 8] : List Nat).length) ∧
    newRequestsInternal (fun _ => true)
      ([[Entry.common 0], [Entry.common 1]] : List (Batch Nat)) = none ∧
    Entry.split (Entry.group ([7, 8] : List Nat)) =
      some (Entry.group [7], Entry.group [8]) := by
  refine ⟨⟨rfl, by decide, by decide⟩, ?_, C3_halving.2 [7, 8] (by decide)⟩
  rw [C3_halving.1 (fun _ => true) [[Entry.common 0], [Entry.common 1]] rfl (by decide)]
  have ht : (([[Entry.common 0], [Entry.common 1]] : List (Batch Nat)).take
      (([[Entry.common 0], [Entry.common 1]] : List (Batch Nat)).length / 2)) =
      [[Entry.common 0]] := by decide
  have hd : (([[Entry.common 0], [Entry.common 1]] : List (Batch Nat)).drop
      (([[Entry.common 0], [Entry.common 1]] : List (Batch Nat)).length / 2)) =
      [[Entry.common 1]] := by decide
  rw [ht, hd, nri_unable (fun _ => true) [Entry.common 0] rfl (by decide),
    nri_unable (fun _ => true) [Entry.common 1] rfl (by decide)]

/-! ### Oversize predicates (split.go and request.go)

The repository carries two generations of the splitter.  `split.go` (the
one driving `newRequestsInternal` above) checks the built `http.Request`
by `ContentLength` against its own constant `maxCompressedSizeBytes = 1e6`;
the older `request.go` pipeline checks the `request` wrapper by
`compressedBodyLength` against `maxCompressedSizeBytes = 1 << 20`.  The
two constants differ: `1e6 = 1000000` while `1 << 20 = 1048576`. -/

namespace Split

/-- `maxCompressedSizeBytes` from `split.go`: the untyped Go constant `1e6`,
i.e. one million bytes. -/
def maxCompressedSizeBytes : Int := 1000000

/-- The built HTTP request as `split.go`'s predicate sees it: only the
`ContentLength` field (`int64`, the compressed byte count set by the
request factory) is inspected. -/
structure HttpRequest where
  ContentLength : Int
deriving DecidableEq, Repr

/-- `requestNeedsSplit` from `split.go`:
`r.ContentLength >= maxCompressedSizeBytes`. -/
def requestNeedsSplit (r : HttpRequest) : Bool :=
  decide (r.ContentLength ≥ maxCompressedSizeBytes)

end Split

namespace RequestPkg

/-- `maxCompressedSizeBytes` from `request.go`: `1 << 20`. -/
def maxCompressedSizeBytes : Int := 1048576

/-- The `request` struct of `request.go`, reduced to the one field its
oversize predicate reads (`compressedBodyLength`); the embedded
`http.Request` handle and the body byte slices are opaque to the
predicate. -/
structure Request where
  compressedBodyLength : Int
deriving DecidableEq, Repr

/-- `requestNeedsSplit` from `request.go`:
`r.compressedBodyLength >= maxCompressedSizeBytes`. -/
def requestNeedsSplit (r : Request) : Bool :=
  decide (r.compressedBodyLength ≥ maxCompressedSizeBytes)

end RequestPkg

/-- C4 as frozen is false: at `ContentLength = 1000000` the default
predicate of the splitter (`split.go`) already holds although
`1000000 < 2^20 = 1048576`. -/
theorem C4_counterexample :
    ¬(Split.requestNeedsSplit ⟨1000000⟩ = true ↔ (1000000 : Int) ≥ 1048576) := by
  decide

/-- C4 (amended).  The default oversize predicate used by the splitter
(`requestNeedsSplit` in `split.go`) holds exactly when the built
request's `ContentLength` is at least `1e6 = 1000000` bytes (one decimal
megabyte, not 1 MiB); the older `request.go` predicate is the one that
holds exactly when the compressed body length is at least
`2^20 = 1048576` bytes. -/
theorem C4_thresholds :
    (∀ r : Split.HttpRequest,
      Split.requestNeedsSplit r = true ↔ r.ContentLength ≥ 1000000) ∧
    (∀ r : RequestPkg.Request,
      RequestPkg.requestNeedsSplit r = true ↔ r.compressedBodyLength ≥ 1048576) := by
  constructor
  · intro r
    simp [Split.requestNeedsSplit, Split.maxCompressedSizeBytes]
  · intro r
    simp [RequestPkg.requestNeedsSplit, RequestPkg.maxCompressedSizeBytes]

/-! ### Delivery retry decision (`response.needsRetry`) -/

/-- Nanoseconds in one second (Go `time.Second` as an `int64` count). -/
def nanosPerSecond : Int := 1000000000

/-- `backoffSequenceSeconds = []int{0, 1, 2, 4, 8, 16}`. -/
def backoffSequenceSeconds : List Int := [0, 1, 2, 4, 8, 16]

/-- A delivery outcome as `response.needsRetry` inspects it: the HTTP
status code (`0` when the transport errored before any response arrived)
and the `Retry-After` header.  The header is modelled in the
integer-seconds form the claim quantifies over: `some n` stands for the
decimal string of `n`, which Go parses via
`time.ParseDuration(value + "s")` into `n` seconds; `none` stands for an
absent or unparseable header (both fall through to the schedule). -/
structure Response where
  statusCode : Int
  retryAfter : Option Int
deriving DecidableEq, Repr

/-- `response.needsRetry` from the harvester: returns whether to retry and
the wait duration in nanoseconds.  The `*Config` receiver argument of the
Go method is unused by its body and is dropped; `attempts` is the
attempt counter, clamped to the last index of the backoff schedule. -/
def needsRetry (r : Response) (attempts : Nat) : Bool × Int :=
  let attempts1 :=
    if attempts ≥ backoffSequenceSeconds.length
    then backoffSequenceSeconds.length - 1 else attempts
  let backoff : Int := backoffSequenceSeconds.getD attempts1 0 * nanosPerSecond
  if r.statusCode = 202 ∨ r.statusCode = 200 then
    (false, 0)
  else if r.statusCode = 400 ∨ r.statusCode = 403 ∨ r.statusCode = 404 ∨
      r.statusCode = 405 ∨ r.statusCode = 411 ∨ r.statusCode = 413 then
    (false, 0)
  else if r.statusCode = 429 then
    match r.retryAfter with
    | some n =>
        if n * nanosPerSecond > backoff then (true, n * nanosPerSecond)
        else (true, backoff)
    | none => (true, backoff)
  else
    (true, backoff)

/-- The retry decision as the specification words it (claim-side
definition, compared against the embedded `needsRetry`): statuses 200,
202 and the terminal statuses 400, 403, 404, 405, 411, 413 are not
retried; every other status is retried after the `min(k, 5)`-indexed
entry of `[0, 1, 2, 4, 8, 16]` seconds, except that a 429 carrying an
integer-seconds `Retry-After` larger than that backoff waits the
`Retry-After` amount instead. -/
def needsRetrySpec (r : Response) (k : Nat) : Bool × Int :=
  let backoff : Int := backoffSequenceSeconds.getD (min k 5) 0 * nanosPerSecond
  if r.statusCode ∈ ([200, 202, 400, 403, 404, 405, 411, 413] : List Int) then
    (false, 0)
  else if r.statusCode = 429 then
    match r.retryAfter with
    | some n =>
        if n * nanosPerSecond > backoff then (true, n * nanosPerSecond)
        else (true, backoff)
    | none => (true, backoff)
  else
    (true, backoff)

/-- C5.  The embedded retry decision agrees with the claim's table at every
status code, `Retry-After` value and attempt count. -/
theorem C5_retry_policy (r : Response) (k : Nat) :
    needsRetry r k = needsRetrySpec r k := by
  obtain ⟨s, ra⟩ := r
  have hmin : (if k ≥ backoffSequenceSeconds.length
      then backoffSequenceSeconds.length - 1 else k) = min k 5 := by
    by_cases hk : k ≥ backoffSequenceSeconds.length
    · rw [if_pos hk]
      simp only [backoffSequenceSeconds, List.length_cons, List.length_nil] at hk ⊢
      omega
    · rw [if_neg hk]
      simp only [backoffSequenceSeconds, List.length_cons, List.length_nil] at hk
      omega
  simp only [needsRetry, needsRetrySpec, hmin, List.mem_cons,
    List.not_mem_nil, or_false]
  by_cases hA : s = 202 ∨ s = 200
  · rw [if_pos hA, if_pos (show s = 200 ∨ s = 202 ∨ s = 400 ∨ s = 403 ∨ s = 404 ∨
      s = 405 ∨ s = 411 ∨ s = 413 by tauto)]
  · rw [if_neg hA]
    by_cases hB : s = 400 ∨ s = 403 ∨ s = 404 ∨ s = 405 ∨ s = 411 ∨ s = 413
    · rw [if_pos hB, if_pos (show s = 200 ∨ s = 202 ∨ s = 400 ∨ s = 403 ∨ s = 404 ∨
        s = 405 ∨ s = 411 ∨ s = 413 by tauto)]
    · rw [if_neg hB, if_neg (show ¬(s = 200 ∨ s = 202 ∨ s = 400 ∨ s = 403 ∨ s = 404 ∨
        s = 405 ∨ s = 411 ∨ s = 413) by tauto)]

/-! ### WithGzipCompressionLevel (request_factory.go) -/

/-- Validity contract of the external codec constructor
`gzip.NewWriterLevel`: it errors exactly outside
`HuffmanOnly (-2) ≤ level ≤ BestCompression (9)`. -/
def gzipLevelValid (level : Int) : Bool := decide (-2 ≤ level ∧ level ≤ 9)

/-- A compressor pool identified by the level `newGzipPool` was called
with; `poolId` keeps physically distinct pools distinct. -/
structure GzipPool where
  level : Int
  poolId : Nat
deriving DecidableEq, Repr

/-- The configuration fields of `requestFactory` that client options
mutate. -/
structure RequestFactoryState where
  apiKeyHeader : String
  apiKey : String
  noDefaultKey : Bool
  scheme : String
  endpoint : String
  path : String
  userAgent : String
  zippers : GzipPool
deriving DecidableEq, Repr

/-- `WithGzipCompressionLevel` from `request_factory.go`.  The source
comment reads "If the gzip compression level is invalid, the gzip pool
is not overridden", but the guard is `if _, err := gzip.NewWriterLevel(nil,
level); err != nil`, so the body runs — and the pool is replaced by
`newGzipPool(level)` — precisely when the level is invalid.  `newPoolId`
stands for the identity of the freshly allocated pool. -/
def WithGzipCompressionLevel (level : Int) (newPoolId : Nat)
    (o : RequestFactoryState) : RequestFactoryState :=
  if gzipLevelValid level = false then
    { o with zippers := ⟨level, newPoolId⟩ }
  else o

/-- C9 is violated by the code (which contradicts its own comment): a valid
level — 9, `BestCompression` — leaves the factory, and in particular its
compressor pool, unchanged, while the invalid level 100 replaces the
pool. -/
theorem C9_gzip_level_inverted (o : RequestFactoryState) (newPoolId : Nat) :
    (gzipLevelValid 9 = true ∧ WithGzipCompressionLevel 9 newPoolId o = o) ∧
    (gzipLevelValid 100 = false ∧
      (WithGzipCompressionLevel 100 newPoolId o).zippers = ⟨100, newPoolId⟩) := by
  refine ⟨⟨by decide, ?_⟩, ⟨by decide, ?_⟩⟩
  · simp [WithGzipCompressionLevel, gzipLevelValid]
  · simp [WithGzipCompressionLevel, gzipLevelValid]

/-! ### sanitizeAPIKeyForLogging (harvester.go) -/

/-- `euKeyPrefix = "eu01xx"` (six characters); API keys are modelled as
their character lists (they are ASCII, so Go's byte indexing and
character indexing agree). -/
def euKeyPrefix : List Char := ['e', 'u', '0', '1', 'x', 'x']

/-- `sanitizeAPIKeyForLogging` from `harvester.go`: a key of at most 8
characters is returned whole; otherwise the slice bound is 8, raised by
`len(euKeyPrefix)` to 14 when the key starts with `eu01xx`, and the Go
expression `apiKey[:end]` panics when the bound exceeds the key length —
the panic is modelled as `none`. -/
def sanitizeAPIKeyForLogging (apiKey : List Char) : Option (List Char) :=
  if apiKey.length ≤ 8 then some apiKey
  else
    let e := if euKeyPrefix <+: apiKey then 8 + euKeyPrefix.length else 8
    if e ≤ apiKey.length then some (apiKey.take e) else none

/-- C10 as frozen is false: on the 9-character key `eu01xxABC`, which
starts with `eu01xx`, the slice bound is 14 > 9 and `apiKey[:end]`
panics (modelled `none`) instead of returning a prefix. -/
theorem C10_counterexample :
    sanitizeAPIKeyForLogging ['e', 'u', '0', '1', 'x', 'x', 'A', 'B', 'C'] = none := by
  decide

/-- C10 (amended).  `sanitizeAPIKeyForLogging` returns a key of at most 8
characters unchanged, an 8-character prefix of a longer key without the
`eu01xx` prefix, and a 14-character prefix of an `eu01xx` key of length
at least 14; but — the amendment — for a key of length 9 through 13 that
starts with `eu01xx` the slice index 14 exceeds the key's length and the
function panics instead of being total. -/
theorem C10_sanitize_key (key : List Char) :
    (key.length ≤ 8 → sanitizeAPIKeyForLogging key = some key) ∧
    (8 < key.length → ¬(euKeyPrefix <+: key) →
      sanitizeAPIKeyForLogging key = some (key.take 8)) ∧
    (14 ≤ key.length → euKeyPrefix <+: key →
      sanitizeAPIKeyForLogging key = some (key.take 14)) ∧
    (8 < key.length → key.length < 14 → euKeyPrefix <+: key →
      sanitizeAPIKeyForLogging key = none) := by
  refine ⟨fun h => ?_, fun h hp => ?_, fun h hp => ?_, fun h1 h2 hp => ?_⟩
  · simp [sanitizeAPIKeyForLogging, h]
  · rw [sanitizeAPIKeyForLogging, if_neg (by omega)]
    simp only [if_neg hp]
    rw [if_pos (by omega)]
  · rw [sanitizeAPIKeyForLogging, if_neg (by omega)]
    simp only [if_pos hp]
    have h6 : euKeyPrefix.length = 6 := by decide
    rw [h6]
    rw [if_pos (by omega)]
  · rw [sanitizeAPIKeyForLogging, if_neg (by omega)]
    simp only [if_pos hp]
    have h6 : euKeyPrefix.length = 6 := by decide
    rw [h6]
    rw [if_neg (by omega)]

/-- Witness for C10 at concrete keys of each shape. -/
theorem C10_witness :
    (sanitizeAPIKeyForLogging ['a', 'b', 'c'] = some ['a', 'b', 'c']) ∧
    (sanitizeAPIKeyForLogging ['a', 'b', 'c', 'd', 'e', 'f', 'g', 'h', 'i'] =
      some (['a', 'b', 'c', 'd', 'e', 'f', 'g', 'h', 'i'].take 8)) ∧
    (sanitizeAPIKeyForLogging
        ['e', 'u', '0', '1', 'x', 'x', '1', '2', '3', '4', '5', '6', '7', '8'] =
      some (['e', 'u', '0', '1', 'x', 'x', '1', '2', '3', '4', '5', '6', '7', '8'].take 14)) ∧
    (sanitizeAPIKeyForLogging
        ['e', 'u', '0', '1', 'x', 'x', '1', '2', '3', '4'] = none) :=
  ⟨(C10_sanitize_key ['a', 'b', 'c']).1 (by decide),
   (C10_sanitize_key _).2.1 (by decide) (by decide),
   (C10_sanitize_key _).2.2.1 (by decide) (by decide),
   (C10_sanitize_key _).2.2.2 (by decide) (by decide) (by decide)⟩

/-! ### Go float64 classification model

The claims inspect floats only through `math.IsNaN` / `math.IsInf` (of
either sign) and through the serialization choice they trigger, never
through rounding, so `float64` is embedded by classification: a finite
value carries its numeric value as a rational. -/

inductive GoFloat : Type where
  | finite (q : ℚ)
  | nan
  | inf (neg : Bool)
deriving DecidableEq, Repr

/-- Go `math.IsNaN(f)`. -/
def GoFloat.isNaN : GoFloat → Bool
  | .nan => true
  | _ => false

/-- Go `math.IsInf(f, 0)`: infinity of either sign. -/
def GoFloat.isInf : GoFloat → Bool
  | .inf _ => true
  | _ => false

/-- `errFloatInfinity` (utilities.go, missing from src/; message per the
changelog's wording of the check). -/
def errFloatInfinity : String := "invalid float is infinity"

/-- `errFloatNaN` (utilities.go, missing from src/). -/
def errFloatNaN : String := "invalid float is NaN"

/-- Modelled from the spec: `isFloatValid` (utilities.go, missing from
src/) — "value must be finite (not NaN/±∞)"; `metrics.go` relies on it
returning the infinity error for infinities and the NaN error for NaN,
and `nil` exactly for finite values. -/
def isFloatValid (f : GoFloat) : Option String :=
  if f.isInf then some errFloatInfinity
  else if f.isNaN then some errFloatNaN
  else none

/-! ### Attribute values and sanitization (attributes.go) -/

/-- A Go `interface` attribute value as `attributeValueValid` switches on
it: one constructor per acceptable scalar type of the switch, plus `nil`
(a nil interface value) and `composite` for every other dynamic type
(struct, slice, map, pointer, function...), carrying its `%T` name. -/
inductive AttrValue : Type where
  | str (s : String)
  | boolean (b : Bool)
  | u8 (n : Nat)
  | u16 (n : Nat)
  | u32 (n : Nat)
  | u64 (n : Nat)
  | i8 (n : Int)
  | i16 (n : Int)
  | i32 (n : Int)
  | i64 (n : Int)
  | f32 (f : GoFloat)
  | f64 (f : GoFloat)
  | uint (n : Nat)
  | int (n : Int)
  | uintptr (n : Nat)
  | nil
  | composite (typeName : String)
deriving DecidableEq, Repr

/-- `attributeValueValid` from `attributes.go`: the switch accepts string,
bool, every fixed-width unsigned and signed integer, float32/float64,
uint, int and uintptr; everything else — including a nil value — falls to
the default case and is rejected. -/
def attributeValueValid : AttrValue → Bool
  | .str _ => true
  | .boolean _ => true
  | .u8 _ => true
  | .u16 _ => true
  | .u32 _ => true
  | .u64 _ => true
  | .i8 _ => true
  | .i16 _ => true
  | .i32 _ => true
  | .i64 _ => true
  | .f32 _ => true
  | .f64 _ => true
  | .uint _ => true
  | .int _ => true
  | .uintptr _ => true
  | .nil => false
  | .composite _ => false

/-- Go's `%T` rendering of the dynamic type, used in the diagnostic. -/
def goTypeName : AttrValue → String
  | .str _ => "string"
  | .boolean _ => "bool"
  | .u8 _ => "uint8"
  | .u16 _ => "uint16"
  | .u32 _ => "uint32"
  | .u64 _ => "uint64"
  | .i8 _ => "int8"
  | .i16 _ => "int16"
  | .i32 _ => "int32"
  | .i64 _ => "int64"
  | .f32 _ => "float32"
  | .f64 _ => "float64"
  | .uint _ => "uint"
  | .int _ => "int"
  | .uintptr _ => "uintptr"
  | .nil => "<nil>"
  | .composite t => t

/-- An attribute map, embedded as its entry list (Go map iteration order is
unspecified; the claims never depend on it). -/
abbrev AttrMap := List (String × AttrValue)

/-- `vetAttributes` from `attributes.go`: a first pass checks whether every
value is acceptable; if so the input map itself is returned with no
error (the map is not copied); otherwise a fresh map is allocated with
exactly the acceptable entries, and the error lists each rejected key
with the `%T` name of its value.  The input map is never written to. -/
def vetAttributes (attributes : AttrMap) :
    AttrMap × Option (List (String × String)) :=
  if attributes.all (fun kv => attributeValueValid kv.2) then
    (attributes, none)
  else
    (attributes.filter (fun kv => attributeValueValid kv.2),
     some (attributes.filterMap (fun kv =>
       if attributeValueValid kv.2 then none
       else some (kv.1, goTypeName kv.2))))

/-- C8.  `vetAttributes` returns the input map itself, with no error, when
every value is an acceptable scalar; otherwise it returns a freshly
allocated map holding exactly the acceptable entries of the (unchanged)
input, together with an error naming exactly the rejected keys with
their observed type names; and a nil value is always rejected. -/
theorem C8_vetAttributes (m : AttrMap) :
    ((∀ kv ∈ m, attributeValueValid kv.2 = true) →
      vetAttributes m = (m, none)) ∧
    ((¬∀ kv ∈ m, attributeValueValid kv.2 = true) →
      ∃ errs, vetAttributes m =
          (m.filter (fun kv => attributeValueValid kv.2), some errs) ∧
        (∀ kv, kv ∈ (vetAttributes m).1 ↔
          kv ∈ m ∧ attributeValueValid kv.2 = true) ∧
        (∀ k t, (k, t) ∈ errs ↔
          ∃ v, (k, v) ∈ m ∧ attributeValueValid v = false ∧ t = goTypeName v)) ∧
    attributeValueValid AttrValue.nil = false := by
  refine ⟨fun h => ?_, fun h => ?_, rfl⟩
  · rw [vetAttributes, if_pos (List.all_eq_true.mpr fun kv hkv => h kv hkv)]
  · have hall : ¬(m.all (fun kv => attributeValueValid kv.2) = true) := by
      intro hc
      exact h (fun kv hkv => List.all_eq_true.mp hc kv hkv)
    refine ⟨m.filterMap (fun kv =>
        if attributeValueValid kv.2 then none
        else some (kv.1, goTypeName kv.2)), ?_, ?_, ?_⟩
    · rw [vetAttributes, if_neg hall]
    · intro kv
      rw [vetAttributes, if_neg hall]
      simp only [List.mem_filter]
    · intro k t
      simp only [List.mem_filterMap]
      constructor
      · rintro ⟨⟨k2, v⟩, hmem, hok⟩
        by_cases hv : attributeValueValid v = true
        · simp [hv] at hok
        · simp only [Bool.not_eq_true] at hv
          simp only [hv, Bool.false_eq_true, if_false, Option.some.injEq,
            Prod.mk.injEq] at hok
          exact ⟨v, by rw [← hok.1]; exact hmem, hv, hok.2.symm⟩
      · rintro ⟨v, hmem, hv, rfl⟩
        exact ⟨(k, v), hmem, by simp [hv]⟩

/-- Witness for C8, following the spec's scenario 6: the all-valid map is
returned as-is, and the mixed map keeps `ok` while rejecting `bad` (a
struct) and `nil`. -/
theorem C8_witness :
    ((∀ kv ∈ ([("ok", AttrValue.str "v")] : AttrMap),
        attributeValueValid kv.2 = true) ∧
      vetAttributes [("ok", AttrValue.str "v")] =
        ([("ok", AttrValue.str "v")], none)) ∧
    ((¬∀ kv ∈ ([("ok", AttrValue.str "v"),
          ("bad", AttrValue.composite "struct \x7b\x7d"),
          ("nil", AttrValue.nil)] : AttrMap), attributeValueValid kv.2 = true) ∧
      ∃ errs,
        vetAttributes [("ok", AttrValue.str "v"),
            ("bad", AttrValue.composite "struct \x7b\x7d"), ("nil", AttrValue.nil)] =
          (([("ok", AttrValue.str "v"),
             ("bad", AttrValue.composite "struct \x7b\x7d"),
             ("nil", AttrValue.nil)] : AttrMap).filter
               (fun kv => attributeValueValid kv.2), some errs) ∧
        (∀ kv, kv ∈ (vetAttributes [("ok", AttrValue.str "v"),
            ("bad", AttrValue.composite "struct \x7b\x7d"), ("nil", AttrValue.nil)]).1 ↔
          kv ∈ ([("ok", AttrValue.str "v"),
             ("bad", AttrValue.composite "struct \x7b\x7d"),
             ("nil", AttrValue.nil)] : AttrMap) ∧ attributeValueValid kv.2 = true) ∧
        (∀ k t, (k, t) ∈ errs ↔
          ∃ v, (k, v) ∈ ([("ok", AttrValue.str "v"),
              ("bad", AttrValue.composite "struct \x7b\x7d"),
              ("nil", AttrValue.nil)] : AttrMap) ∧
            attributeValueValid v = false ∧ t = goTypeName v)) :=
  ⟨⟨by decide, (C8_vetAttributes [("ok", AttrValue.str "v")]).1 (by decide)⟩,
   ⟨by decide, (C8_vetAttributes _).2.1 (by decide)⟩⟩

/-! ### Metric records, validation and serialization (metrics.go)

Buffers are embedded as `List Char`.  The JSON field writer
(`internal.JSONFieldsWriter`, whose file is not under src/) is modelled
from the spec's serialization grammar: a writer is its needs-comma flag,
all writers append to one shared buffer; `AddKey` writes a comma when the
flag is set, then the quoted key and a colon, and sets the flag.  Number
rendering of finite values is a model (`toString` of the rational); the
spec places JSON encoding primitives out of scope, and no claim depends
on digits — only on the null-versus-number choice. -/

/-- Go `time.Time` for records: `none` is the zero instant (`IsZero`),
`some ms` a set timestamp carried as the integer milliseconds
(`UnixNano()/(1000*1000)`) it serializes to. -/
abbrev GoTime := Option Int

/-- Quote-and-backslash JSON string escaping (control characters do not
occur in the claims and are out of scope). -/
def jsonEscape (s : String) : List Char :=
  (s.toList.map fun c =>
    if c = '\"' then ['\\', '\"'] else if c = '\\' then ['\\', '\\'] else [c]).flatten

/-- A JSON string literal. -/
def jsonQuote (s : String) : List Char := '\"' :: jsonEscape s ++ ['\"']

/-- Rendering of a float value (finite values as their rational
`toString`: a model — validation keeps NaN and infinities away from
every `FloatField` call site). -/
def floatChars : GoFloat → List Char
  | .finite q => (toString q).toList
  | .nan => ('N' :: "aN".toList)
  | .inf neg => if neg then "-Inf".toList else "+Inf".toList

/-- `JSONFieldsWriter.AddKey` on the shared buffer: comma when needed,
quoted key, colon; the writer's flag becomes set. -/
def addKey (buf : List Char) (comma : Bool) (key : String) : List Char × Bool :=
  ((buf ++ (if comma then [','] else [])) ++ jsonQuote key ++ [':'], true)

/-- `JSONFieldsWriter.StringField`. -/
def stringField (buf : List Char) (comma : Bool) (key : String) (v : String) :
    List Char × Bool :=
  let p := addKey buf comma key
  (p.1 ++ jsonQuote v, p.2)

/-- `JSONFieldsWriter.RawField`. -/
def rawField (buf : List Char) (comma : Bool) (key : String) (raw : List Char) :
    List Char × Bool :=
  let p := addKey buf comma key
  (p.1 ++ raw, p.2)

/-- `JSONFieldsWriter.IntField`. -/
def intField (buf : List Char) (comma : Bool) (key : String) (n : Int) :
    List Char × Bool :=
  let p := addKey buf comma key
  (p.1 ++ (toString n).toList, p.2)

/-- `JSONFieldsWriter.FloatField`. -/
def floatField (buf : List Char) (comma : Bool) (key : String) (f : GoFloat) :
    List Char × Bool :=
  let p := addKey buf comma key
  (p.1 ++ floatChars f, p.2)

/-- `writeTimestampInterval` from `metrics.go`: `timestamp` only when the
time is set, `interval.ms` (`interval.Milliseconds()`, nanoseconds
divided by 1e6 truncating toward zero like Go) when the interval is
non-zero or forced. -/
def writeTimestampInterval (buf : List Char) (comma : Bool) (timestamp : GoTime)
    (interval : Int) (forceIntervalValid : Bool) : List Char × Bool :=
  let p :=
    match timestamp with
    | some ms => intField buf comma "timestamp" ms
    | none => (buf, comma)
  if interval ≠ 0 ∨ forceIntervalValid = true then
    intField p.1 p.2 "interval.ms" (interval.tdiv 1000000)
  else p

/-- Rendering of one attribute value inside the `attributes` object
(modelled from the spec's grammar; attributes are vetted before they are
serialized, and no claim inspects this rendering). -/
def attrValueChars : AttrValue → List Char
  | .str s => jsonQuote s
  | .boolean b => if b then "true".toList else "false".toList
  | .u8 n => (toString n).toList
  | .u16 n => (toString n).toList
  | .u32 n => (toString n).toList
  | .u64 n => (toString n).toList
  | .i8 n => (toString n).toList
  | .i16 n => (toString n).toList
  | .i32 n => (toString n).toList
  | .i64 n => (toString n).toList
  | .f32 f => floatChars f
  | .f64 f => floatChars f
  | .uint n => (toString n).toList
  | .int n => (toString n).toList
  | .uintptr n => (toString n).toList
  | .nil => "null".toList
  | .composite t => jsonQuote t

/-- The `attributes` object (modelled from the spec's grammar
`"attributes":...` with one member per entry). -/
def attributesObjChars (attrs : AttrMap) : List Char :=
  '{' ::
    ((attrs.enum.map fun p =>
      (if p.1 = 0 then [] else [',']) ++ jsonQuote p.2.1 ++ [':'] ++
        attrValueChars p.2.2).flatten ++ ['}'])

/-- A validation event, as the `map[string]interface` handed to the error
logger by `validate` (`message`, `name`, `err` fields). -/
structure ValidationErr : Type where
  message : String
  name : String
  err : String
deriving DecidableEq, Repr

/-- `Count` from `metrics.go`. -/
structure Count : Type where
  Name : String
  Attributes : Option AttrMap
  AttributesJSON : Option (List Char)
  Value : GoFloat
  Timestamp : GoTime
  Interval : Int
  ForceIntervalValid : Bool
deriving DecidableEq, Repr

/-- `Count.validate` from `metrics.go`. -/
def Count.validate (m : Count) : Option ValidationErr :=
  match isFloatValid m.Value with
  | some err => some ⟨"invalid count value", m.Name, err⟩
  | none => none

/-- `Gauge` from `metrics.go`. -/
structure Gauge : Type where
  Name : String
  Attributes : Option AttrMap
  AttributesJSON : Option (List Char)
  Value : GoFloat
  Timestamp : GoTime
deriving DecidableEq, Repr

/-- `Gauge.validate` from `metrics.go`. -/
def Gauge.validate (m : Gauge) : Option ValidationErr :=
  match isFloatValid m.Value with
  | some err => some ⟨"invalid gauge field", m.Name, err⟩
  | none => none

/-- `Summary` from `metrics.go`. -/
structure Summary : Type where
  Name : String
  Attributes : Option AttrMap
  AttributesJSON : Option (List Char)
  Count : GoFloat
  Sum : GoFloat
  Min : GoFloat
  Max : GoFloat
  Timestamp : GoTime
  Interval : Int
  ForceIntervalValid : Bool
deriving DecidableEq, Repr

/-- `Summary.validate` from `metrics.go`: `Count` and `Sum` through
`isFloatValid` (finite required), then `Min` and `Max` through
`math.IsInf` only — NaN min/max pass. -/
def Summary.validate (m : Summary) : Option ValidationErr :=
  match isFloatValid m.Count with
  | some err => some ⟨"invalid summary field", m.Name, err⟩
  | none =>
    match isFloatValid m.Sum with
    | some err => some ⟨"invalid summary field", m.Name, err⟩
    | none =>
      if m.Min.isInf then some ⟨"invalid summary field", m.Name, errFloatInfinity⟩
      else if m.Max.isInf then some ⟨"invalid summary field", m.Name, errFloatInfinity⟩
      else none

/-- `Summary.writeJSON` from `metrics.go`, statement by statement.  The
source's NaN-min branch calls `w.RawField` (the outer writer) where the
other branches use `vw` (the value writer); both flags are already set
there, so the emitted bytes agree — the model threads both flags
faithfully. -/
def Summary.writeJSON (m : Summary) : List Char :=
  let b0 : List Char := ['{']
  let p1 := stringField b0 false "name" m.Name
  let p2 := stringField p1.1 p1.2 "type" "summary"
  let p3 := addKey p2.1 p2.2 "value"
  let b4 := p3.1 ++ ['{']
  let p5 := floatField b4 false "sum" m.Sum
  let p6 := floatField p5.1 p5.2 "count" m.Count
  let p7 : List Char × Bool × Bool :=
    if m.Min.isNaN = true then
      let r := rawField p6.1 p3.2 "min" ("null".toList)
      (r.1, r.2, p6.2)
    else
      let r := floatField p6.1 p6.2 "min" m.Min
      (r.1, p3.2, r.2)
  let p8 :=
    if m.Max.isNaN = true then rawField p7.1 p7.2.2 "max" ("null".toList)
    else floatField p7.1 p7.2.2 "max" m.Max
  let b9 := p8.1 ++ ['}']
  let p10 := writeTimestampInterval b9 p7.2.1 m.Timestamp m.Interval m.ForceIntervalValid
  let b11 :=
    match m.Attributes with
    | some attrs => (rawField p10.1 p10.2 "attributes" (attributesObjChars attrs)).1
    | none =>
      match m.AttributesJSON with
      | some raw => (rawField p10.1 p10.2 "attributes" raw).1
      | none => p10.1
  b11 ++ ['}']

/-- The summary serialization as the specification's grammar words it
(claim-side definition, compared against the embedded
`Summary.writeJSON`): the fixed envelope, with `min` and `max` rendered
as the JSON literal `null` exactly when they are NaN. -/
def summarySpecJSON (m : Summary) : List Char :=
  ['{'] ++ jsonQuote "name" ++ [':'] ++ jsonQuote m.Name
  ++ [','] ++ jsonQuote "type" ++ [':'] ++ jsonQuote "summary"
  ++ [','] ++ jsonQuote "value" ++ [':']
  ++ ['{'] ++ jsonQuote "sum" ++ [':'] ++ floatChars m.Sum
  ++ [','] ++ jsonQuote "count" ++ [':'] ++ floatChars m.Count
  ++ [','] ++ jsonQuote "min" ++ [':']
  ++ (if m.Min.isNaN = true then "null".toList else floatChars m.Min)
  ++ [','] ++ jsonQuote "max" ++ [':']
  ++ (if m.Max.isNaN = true then "null".toList else floatChars m.Max)
  ++ ['}']
  ++ (match m.Timestamp with
      | some ms => [','] ++ jsonQuote "timestamp" ++ [':'] ++ (toString ms).toList
      | none => [])
  ++ (if m.Interval ≠ 0 ∨ m.ForceIntervalValid = true then
        (if m.Timestamp = none ∧ False then [] else [',']) ++ jsonQuote "interval.ms"
          ++ [':'] ++ (toString (m.Interval.tdiv 1000000)).toList
      else [])
  ++ (match m.Attributes with
      | some attrs => [','] ++ jsonQuote "attributes" ++ [':'] ++ attributesObjChars attrs
      | none =>
        match m.AttributesJSON with
        | some raw => [','] ++ jsonQuote "attributes" ++ [':'] ++ raw
        | none => [])
  ++ ['}']

/-- A finite (neither NaN nor infinite) float. -/
def GoFloat.isFinite : GoFloat → Bool
  | .finite _ => true
  | _ => false

/-- The claim's reading of "count ≥ 0" in float semantics: false for NaN,
true for +∞ and every non-negative finite value. -/
def goFloatNonnegB : GoFloat → Bool
  | .finite q => decide (0 ≤ q)
  | .nan => false
  | .inf neg => !neg

set_option maxHeartbeats 2000000 in
theorem summary_writeJSON_eq_spec (m : Summary) :
    m.writeJSON = summarySpecJSON m := by
  obtain ⟨Name, Attrs, AttrsJ, C, S, Mi, Ma, Ts, Iv, F⟩ := m
  simp only [Summary.writeJSON, summarySpecJSON, stringField, floatField,
    rawField, intField, addKey, writeTimestampInterval, if_true, if_false,
    Bool.false_eq_true, and_false, List.nil_append, List.append_nil]
  by_cases hMi : Mi.isNaN = true <;> by_cases hMa : Ma.isNaN = true <;>
    rcases Ts with _ | ms <;>
      by_cases hIv : Iv ≠ 0 ∨ F = true <;>
        rcases Attrs with _ | attrs <;>
          rcases AttrsJ with _ | raw <;>
            simp [hMi, hMa, hIv, List.append_assoc]

/-- The summary used by the C7 counterexample: a negative but finite
count. -/
def exSummaryC7 : Summary :=
  ⟨"badCount", none, none, .finite (-1), .finite 0, .finite 0, .finite 0,
    none, 0, false⟩

/-- C7 as frozen is false: the summary with `count = -1` (finite but
negative) passes validation although the claim's invariant
`count ≥ 0` fails, so "accepts exactly when count ≥ 0 and ..." does not
hold. -/
theorem C7_counterexample :
    ¬(exSummaryC7.validate = none ↔
      (goFloatNonnegB exSummaryC7.Count = true ∧
       exSummaryC7.Sum.isFinite = true ∧
       (exSummaryC7.Min.isFinite = true ∨ exSummaryC7.Min.isNaN = true) ∧
       (exSummaryC7.Max.isFinite = true ∨ exSummaryC7.Max.isNaN = true))) := by
  decide

/-- C7 (amended).  Summary validation accepts exactly when count and sum
are finite and min and max are each finite or NaN — the sign of count is
not checked, so `count ≥ 0` is not part of what `validate` enforces,
while an infinite min or max is rejected; and the serialized form
follows the summary grammar, emitting a NaN min or max as the JSON
literal `null`. -/
theorem C7_summary_validation (m : Summary) :
    (m.validate = none ↔
      (m.Count.isFinite = true ∧ m.Sum.isFinite = true ∧
       (m.Min.isFinite = true ∨ m.Min.isNaN = true) ∧
       (m.Max.isFinite = true ∨ m.Max.isNaN = true))) ∧
    m.writeJSON = summarySpecJSON m := by
  refine ⟨?_, summary_writeJSON_eq_spec m⟩
  obtain ⟨Name, Attrs, AttrsJ, C, S, Mi, Ma, Ts, Iv, F⟩ := m
  cases C <;> cases S <;> cases Mi <;> cases Ma <;>
    simp [Summary.validate, isFloatValid, GoFloat.isInf, GoFloat.isNaN,
      GoFloat.isFinite]

/-! ### Harvester record entry points (harvester.go)

The record entry points touch only the per-kind buffers and, for
metrics, the error sink; the untouched harvester fields (config,
aggregated metrics, request factories, `lastHarvest`) are omitted from
the state.  The claims quantify over non-nil harvesters, so the states
model a live receiver (the nil receiver returns early in Go).
`time.Now()` is passed in as `now`. -/

/-- `Event` from `events.go`. -/
structure Event : Type where
  EventType : String
  Timestamp : GoTime
  Attributes : Option AttrMap
  AttributesJSON : Option (List Char)
deriving DecidableEq, Repr

/-- `Span` from `spans.go` (`Duration` in nanoseconds). -/
structure Span : Type where
  ID : String
  TraceID : String
  Timestamp : GoTime
  Name : String
  ParentID : String
  Duration : Int
  ServiceName : String
  Attributes : Option AttrMap
  Events : List Event
deriving DecidableEq, Repr

/-- `Log` from `logs.go`. -/
structure Log : Type where
  Message : String
  Timestamp : GoTime
  Attributes : Option AttrMap
deriving DecidableEq, Repr

/-- `Metric` is implemented by `Count`, `Gauge` and `Summary`
(metrics.go). -/
inductive Metric : Type where
  | count (c : Count)
  | gauge (g : Gauge)
  | summary (s : Summary)
deriving DecidableEq, Repr

/-- `Metric.validate` dispatch. -/
def Metric.validate : Metric → Option ValidationErr
  | .count c => c.validate
  | .gauge g => g.validate
  | .summary s => s.validate

/-- The validation errors of the record entry points
(`errSpanIDUnset`, `errTraceIDUnset`, `errEventTypeUnset`,
`errLogMessageUnset`). -/
inductive RecordError : Type where
  | errSpanIDUnset
  | errTraceIDUnset
  | errEventTypeUnset
  | errLogMessageUnset
deriving DecidableEq, Repr

/-- The mutable telemetry buffers of a `Harvester`, together with the
events handed to the configured error logger (`config.logError`). -/
structure HarvesterState : Type where
  spans : List Span
  events : List Event
  logs : List Log
  rawMetrics : List Metric
  errorLog : List ValidationErr
deriving DecidableEq, Repr

/-- `Harvester.RecordSpan`: trace id first, then span id; a zero timestamp
is defaulted to now; the span is appended under the lock. -/
def RecordSpan (h : HarvesterState) (s : Span) (now : Int) :
    HarvesterState × Option RecordError :=
  if s.TraceID = "" then (h, some .errTraceIDUnset)
  else if s.ID = "" then (h, some .errSpanIDUnset)
  else
    let s2 := if s.Timestamp = none then { s with Timestamp := some now } else s
    ({ h with spans := h.spans ++ [s2] }, none)

/-- `Harvester.RecordEvent`. -/
def RecordEvent (h : HarvesterState) (e : Event) (now : Int) :
    HarvesterState × Option RecordError :=
  if e.EventType = "" then (h, some .errEventTypeUnset)
  else
    let e2 := if e.Timestamp = none then { e with Timestamp := some now } else e
    ({ h with events := h.events ++ [e2] }, none)

/-- `Harvester.RecordLog`. -/
def RecordLog (h : HarvesterState) (l : Log) (now : Int) :
    HarvesterState × Option RecordError :=
  if l.Message = "" then (h, some .errLogMessageUnset)
  else
    let l2 := if l.Timestamp = none then { l with Timestamp := some now } else l
    ({ h with logs := h.logs ++ [l2] }, none)

/-- `Harvester.RecordMetric`: no error return; a metric failing `validate`
is handed to the error logger and dropped, a valid one appended to
`rawMetrics`. -/
def RecordMetric (h : HarvesterState) (m : Metric) : HarvesterState :=
  match m.validate with
  | some fields => { h with errorLog := h.errorLog ++ [fields] }
  | none => { h with rawMetrics := h.rawMetrics ++ [m] }

/-- C6.  On a live harvester, `RecordSpan`, `RecordEvent` and `RecordLog`
return the respective unset-field validation error and leave the whole
state (every internal buffer) unchanged when the required field is
empty; `RecordMetric` returns no error at the type level: a metric whose
`validate` fails is appended to the error sink and dropped from
`rawMetrics`, a valid one is appended to `rawMetrics` with the error
sink untouched. -/
theorem C6_record_validation :
    (∀ (h : HarvesterState) (s : Span) (now : Int), s.TraceID = "" →
      RecordSpan h s now = (h, some .errTraceIDUnset)) ∧
    (∀ (h : HarvesterState) (s : Span) (now : Int), s.TraceID ≠ "" → s.ID = "" →
      RecordSpan h s now = (h, some .errSpanIDUnset)) ∧
    (∀ (h : HarvesterState) (e : Event) (now : Int), e.EventType = "" →
      RecordEvent h e now = (h, some .errEventTypeUnset)) ∧
    (∀ (h : HarvesterState) (l : Log) (now : Int), l.Message = "" →
      RecordLog h l now = (h, some .errLogMessageUnset)) ∧
    (∀ (h : HarvesterState) (m : Metric),
      (∀ fields, m.validate = some fields →
        (RecordMetric h m).rawMetrics = h.rawMetrics ∧
        (RecordMetric h m).errorLog = h.errorLog ++ [fields] ∧
        (RecordMetric h m).spans = h.spans ∧
        (RecordMetric h m).events = h.events ∧
        (RecordMetric h m).logs = h.logs) ∧
      (m.validate = none →
        (RecordMetric h m).rawMetrics = h.rawMetrics ++ [m] ∧
        (RecordMetric h m).errorLog = h.errorLog)) := by
  refine ⟨fun h s now ht => ?_, fun h s now ht hi => ?_, fun h e now he => ?_,
    fun h l now hl => ?_, fun h m => ⟨fun fields hv => ?_, fun hv => ?_⟩⟩
  · simp [RecordSpan, ht]
  · simp [RecordSpan, ht, hi]
  · simp [RecordEvent, he]
  · simp [RecordLog, hl]
  · simp [RecordMetric, hv]
  · simp [RecordMetric, hv]

/-- The empty harvester state, a bad and a good record of each kind, used
by the C6 witness. -/
def h0 : HarvesterState := ⟨[], [], [], [], []⟩

/-- A span missing both ids. -/
def sBad : Span := ⟨"", "", none, "", "", 0, "", none, []⟩

/-- A span with a trace id but no span id. -/
def sBad2 : Span := ⟨"", "tid", none, "", "", 0, "", none, []⟩

/-- An event with no type. -/
def eBad : Event := ⟨"", none, none, none⟩

/-- A log with no message. -/
def lBad : Log := ⟨"", none, none⟩

/-- A count metric with a NaN value (fails validation). -/
def mBad : Metric := .count ⟨"n", none, none, .nan, none, 0, false⟩

/-- A count metric with a finite value (passes validation). -/
def mGood : Metric := .count ⟨"n", none, none, .finite 1, none, 0, false⟩

/-- Witness for C6 on concrete records. -/
theorem C6_witness :
    (RecordSpan h0 sBad 5 = (h0, some .errTraceIDUnset)) ∧
    (RecordSpan h0 sBad2 5 = (h0, some .errSpanIDUnset)) ∧
    (RecordEvent h0 eBad 5 = (h0, some .errEventTypeUnset)) ∧
    (RecordLog h0 lBad 5 = (h0, some .errLogMessageUnset)) ∧
    ((RecordMetric h0 mBad).rawMetrics = h0.rawMetrics ∧
      (RecordMetric h0 mBad).errorLog =
        h0.errorLog ++ [⟨"invalid count value", "n", errFloatNaN⟩] ∧
      (RecordMetric h0 mBad).spans = h0.spans ∧
      (RecordMetric h0 mBad).events = h0.events ∧
      (RecordMetric h0 mBad).logs = h0.logs) ∧
    ((RecordMetric h0 mGood).rawMetrics = h0.rawMetrics ++ [mGood] ∧
      (RecordMetric h0 mGood).errorLog = h0.errorLog) :=
  ⟨C6_record_validation.1 h0 sBad 5 rfl,
   C6_record_validation.2.1 h0 sBad2 5 (by decide) rfl,
   C6_record_validation.2.2.1 h0 eBad 5 rfl,
   C6_record_validation.2.2.2.1 h0 lBad 5 rfl,
   (C6_record_validation.2.2.2.2 h0 mBad).1
     ⟨"invalid count value", "n", errFloatNaN⟩ (by decide),
   (C6_record_validation.2.2.2.2 h0 mGood).2 (by decide)⟩

end NRTelemetry
